import Mathlib

/-!
Verification development for the log-file rotation engine
(`rollingfile` package: `fsutils.go`, `rollingfile.go`, `rollingfile_time_hook.go`).

Modelling choices (shallow embedding):
* Go strings are modelled as `List Char` (`Str`); Go byte indexing on the
  ASCII names used by the engine coincides with character indexing.
* The managed directory is modelled as a finite association list from file
  name to file content (`Disk`); all paths are relative to that single
  directory, mirroring the engine always joining `currentDirPath` with a name.
* Clock readings (`time.Now()`) are abstract instants (`Nat`); the configured
  layout pattern is a pair of functions `fmt` (rendering, `time.Format`) and
  `parse` (`time.ParseInLocation`, `none` on parse error; a parsed value is
  the timestamp used for ordering, the zero time being `0`).
* Fallible OS calls are driven by an explicit environment (`ScanEnv`,
  `IOEnv`) that says which calls fail, so error paths are ordinary values.
* `sort.Sort` of the Go standard library is kept abstract: the development is
  parametrised by a function `goSort` together with the contract the library
  documents (the result is a permutation of the input, ordered by `Less`;
  stability is NOT part of the contract).
-/

/-- Go strings, as character lists. -/
abbrev Str := List Char

/-- Convenience: a Lean string literal as a `Str`. -/
def str (s : String) : Str := s.data

/-- `rollingLogHistoryDelimiter = "."` (rollingfile.go). -/
def rollingLogHistoryDelimiter : Str := ['.']

/-- Errors returned by the modelled OS / engine calls. -/
inductive IOErr where
  | errInvalid      -- os.ErrInvalid, returned by (*os.File)(nil).Close()
  | closeErr        -- a real close failure
  | dirOpenErr      -- "Cannot open directory ..." (fsutils.go)
  | pathResolveErr  -- "cannot get absolute path of directory ..." (fsutils.go)
  | readdirErr      -- Readdir returned a non-EOF error (fsutils.go)
  | renameErr       -- os.Rename failure
  | mkdirErr        -- os.MkdirAll failure
  | openErr         -- os.OpenFile failure
  | statErr         -- file.Stat failure
  | formatErr       -- Formatter.Format failure (logrus side)
deriving DecidableEq

/-- Result of `os.Remove`. -/
inductive RmErr where
  | notExist  -- the file does not exist (os.IsNotExist holds)
  | locked    -- any other removal failure
deriving DecidableEq

/-- The managed directory: file name ↦ file content (regular files only). -/
abbrev Disk := List (Str × Str)

/-- Look a file up on the disk. -/
def dLookup : Disk → Str → Option Str
  | [], _ => none
  | (k, v) :: rest, n => if k = n then some v else dLookup rest n

/-- Remove a file from the disk. -/
def dErase (d : Disk) (n : Str) : Disk :=
  d.filter (fun kv => decide (kv.1 ≠ n))

/-- Create or overwrite a file on the disk. -/
def dSet (d : Disk) (n c : Str) : Disk := (n, c) :: dErase d n

/-- The names present on the disk (what a directory listing shows). -/
def dNames (d : Disk) : List Str := d.map (·.1)

/-- Environment for one directory scan (`getDirFilePaths`):
which of its fallible steps fail, whether the directory path is absolute,
and the absolute directory used to build full paths. -/
structure ScanEnv where
  openDirFails : Bool
  dirIsAbs : Bool
  absFails : Bool
  readdirFails : Bool
  absDir : Str

/-- `filepath.Join` for a clean absolute directory and a plain file name. -/
def pathJoin (a b : Str) : Str := a ++ ['/'] ++ b

/-- `getDirFilePaths` (fsutils.go): open the directory; if the directory path
is not absolute, derive the absolute path (failing the whole scan on error,
before the output mode is consulted); read the entries (the chunked
`Readdir` loop is modelled as one listing, its non-EOF error branch by
`readdirFails`); keep regular files; in name mode return names, otherwise
full paths; apply the filter when one is given. -/
def getDirFilePaths (env : ScanEnv) (listing : List (Str × Bool))
    (fpFilter : Option (Str → Bool)) (pathIsName : Bool) :
    Except IOErr (List Str) :=
  if env.openDirFails then .error .dirOpenErr
  else if !env.dirIsAbs && env.absFails then .error .pathResolveErr
  else if env.readdirFails then .error .readdirErr
  else .ok (listing.filterMap fun e =>
    if e.2 then
      let fp := if pathIsName then e.1 else pathJoin env.absDir e.1
      match fpFilter with
      | some flt => if flt fp then some fp else none
      | none => some fp
    else none)

/-- Environment for the engine's OS calls during one `Fire`. -/
structure IOEnv where
  closeFails : Bool
  scan : ScanEnv
  renameFails : Bool
  mkdirFails : Bool
  openFails : Bool
  statFails : Bool
  removeFails : Str → Bool

/-- `os.Remove`: missing file reports `notExist`; an existing file is removed
unless the environment makes its removal fail. -/
def osRemove (env : IOEnv) (d : Disk) (path : Str) : Option RmErr × Disk :=
  match dLookup d path with
  | none => (some .notExist, d)
  | some _ =>
    if env.removeFails path then (some .locked, d) else (none, dErase d path)

/-- `tryRemoveFile` (fsutils.go): remove, ignoring only the
file-does-not-exist error. -/
def tryRemoveFile (env : IOEnv) (d : Disk) (path : Str) : Option RmErr × Disk :=
  match osRemove env d path with
  | (some .notExist, d1) => (none, d1)
  | r => r

/-- `os.Rename`: fails if the source is missing (or the environment says so);
otherwise moves the content, silently overwriting any file at the target. -/
def osRename (env : IOEnv) (d : Disk) (old new : Str) : Option IOErr × Disk :=
  if env.renameFails then (some .renameErr, d)
  else
    match dLookup d old with
    | none => (some .renameErr, d)
    | some c => (none, dSet (dErase d old) new c)

/-- The configured time layout: `fmt` models `time.Format` with the pattern,
`parse` models `time.ParseInLocation` with the pattern in local time
(`none` = parse error; a parsed value is the timestamp, zero time = `0`). -/
structure TimePattern where
  fmt : Nat → Str
  parse : Str → Option Nat

/-- The mutable engine state: `rollingFile` (rollingfile.go) together with the
time hook's own fields (rollingfile_time_hook.go).  `currentDirPath` and
`rollingType` are omitted: the directory is the implicit key space of `Disk`
and the rolling type is never consulted by any behaviour. -/
structure HookState where
  fileName : Str
  maxRolls : Int
  currentFile : Option Unit
  currentName : Str
  currentFileSize : Nat
  currentTimeFileName : Str
deriving DecidableEq

/-- `needsToRoll` (time hook): format now; on the very first call (sentinel:
empty remembered label) record the label and answer `false`; afterwards
answer whether the label changed. -/
def needsToRoll (p : TimePattern) (now : Nat) (st : HookState) :
    Bool × HookState :=
  let newName := p.fmt now
  if st.currentTimeFileName = [] then
    (false, { st with currentTimeFileName := newName })
  else
    (decide (newName ≠ st.currentTimeFileName), st)

/-- `isFileRollNameValid` (time hook): nonempty and parseable. -/
def isFileRollNameValid (p : TimePattern) (rname : Str) : Bool :=
  if rname.length = 0 then false else (p.parse rname).isSome

/-- The ordering key used by `rollTimeFileTailsSlice.Less`: the parsed
timestamp, the zero time on parse failure (Go discards the parse error). -/
def timeKey (p : TimePattern) (s : Str) : Nat := (p.parse s).getD 0

/-- `rollTimeFileTailsSlice.Less`: compare parsed timestamps with `Before`. -/
def rollTimeLess (p : TimePattern) (a b : Str) : Bool :=
  decide (timeKey p a < timeKey p b)

/-- The contract Go's standard library documents for `sort.Sort` applied to
`rollTimeFileTailsSlice`: the output is a permutation of the input, with no
inversion with respect to `Less`.  `sort.Sort` is explicitly NOT guaranteed
to be stable. -/
structure GoSortContract (p : TimePattern) (goSort : List Str → List Str) :
    Prop where
  perm : ∀ l, (goSort l).Perm l
  sorted : ∀ l, (goSort l).Pairwise (fun a b => rollTimeLess p b a = false)

/-- `sortFileRollNamesAsc` (time hook): run `sort.Sort` on the tails with the
time comparator; the returned error is always `nil`. -/
def sortFileRollNamesAsc (goSort : List Str → List Str) (fs : List Str) :
    List Str × Option IOErr :=
  (goSort fs, none)

/-- `strings.HasPrefix`. -/
def strHasPre : Str → Str → Bool
  | [], _ => true
  | _ :: _, [] => false
  | a :: as, b :: bs => a = b && strHasPre as bs

/-- `hasRollName` (rollingfile.go): the name starts with
`<fileName><delimiter>`. -/
def hasRollName (fileName file : Str) : Bool :=
  strHasPre (fileName ++ rollingLogHistoryDelimiter) file

/-- `getFileRollName` (rollingfile.go): drop the `<fileName><delimiter>`
prefix from the name. -/
def getFileRollName (fileName file : Str) : Str :=
  file.drop (fileName ++ rollingLogHistoryDelimiter).length

/-- `createFullFileName` (rollingfile.go). -/
def createFullFileName (originalName rollname : Str) : Str :=
  originalName ++ rollingLogHistoryDelimiter ++ rollname

/-- The directory listing the scan sees: every disk file, regular. -/
def dListing (d : Disk) : List (Str × Bool) := d.map (fun kv => (kv.1, true))

/-- `getSortedLogHistory` (rollingfile.go): scan the directory in name mode
with no filter; keep the names carrying the roll prefix; strip the prefix;
keep the tails the policy accepts; sort ascending via the policy; rebuild the
full names. -/
def getSortedLogHistory (goSort : List Str → List Str) (p : TimePattern)
    (env : IOEnv) (st : HookState) (d : Disk) : Except IOErr (List Str) :=
  match getDirFilePaths env.scan (dListing d) none true with
  | .error e => .error e
  | .ok files =>
    let validRollNames :=
      ((files.filter (hasRollName st.fileName)).map
        (getFileRollName st.fileName)).filter (isFileRollNameValid p)
    let sorted := (sortFileRollNamesAsc goSort validRollNames).1
    .ok (sorted.map (createFullFileName st.fileName))

/-- One iteration of the `deleteOldRolls` loop: try best to delete the file
without breaking the loop, recording a failure on the side channel (Go
prints it to stderr). -/
def pruneStep (env : IOEnv) (acc : Disk × List Str) (name : Str) :
    Disk × List Str :=
  match tryRemoveFile env acc.1 name with
  | (none, d1) => (d1, acc.2)
  | (some _, d1) => (d1, acc.2 ++ [name])

/-- `deleteOldRolls` (rollingfile.go): with a non-positive limit do nothing;
otherwise best-effort-delete the first `len(history) - maxRolls` entries,
collecting (not propagating) per-file failures — Go always returns `nil`
here.  The second component is the stderr side channel. -/
def deleteOldRolls (env : IOEnv) (maxRolls : Int) (d : Disk)
    (history : List Str) : Disk × List Str :=
  if maxRolls ≤ 0 then (d, [])
  else
    let rollsToDelete : Int := (history.length : Int) - maxRolls
    if rollsToDelete ≤ 0 then (d, [])
    else (history.take rollsToDelete.toNat).foldl (pruneStep env) (d, [])

/-- Result of one `roll` call.  `rolled` is the history name the active file
was renamed to, when the rename happened; `warnings` is the stderr side
channel of `deleteOldRolls`. -/
structure RollResult where
  err : Option IOErr
  rolled : Option Str
  st : HookState
  disk : Disk
  warnings : List Str

/-- `roll` (rollingfile.go).  Faithful points: `(*os.File)(nil).Close()`
returns `os.ErrInvalid`, so entering `roll` with no open handle fails at
once; a real close failure returns before the handle field is cleared;
`getNewHistoryRollFileName` (time hook) is evaluated before the rename and
already advances `currentTimeFileName` to the freshly formatted now;
`deleteOldRolls` is only called when the appended history exceeds `maxRolls`
and never returns an error. -/
def roll (goSort : List Str → List Str) (p : TimePattern) (env : IOEnv)
    (now : Nat) (st : HookState) (d : Disk) : RollResult :=
  match st.currentFile with
  | none => ⟨some .errInvalid, none, st, d, []⟩
  | some _ =>
    if env.closeFails then ⟨some .closeErr, none, st, d, []⟩
    else
      let st1 := { st with currentFile := none }
      match getSortedLogHistory goSort p env st1 d with
      | .error e => ⟨some e, none, st1, d, []⟩
      | .ok history =>
        -- getNewHistoryRollFileName: return the remembered label, then
        -- remember the label of now.
        let newTail := st1.currentTimeFileName
        let st2 := { st1 with currentTimeFileName := p.fmt now }
        let newHistoryName := createFullFileName st2.fileName newTail
        match osRename env d st2.currentName newHistoryName with
        | (some e, d1) => ⟨some e, none, st2, d1, []⟩
        | (none, d1) =>
          let history1 := history ++ [newHistoryName]
          if (history1.length : Int) > st2.maxRolls then
            let pr := deleteOldRolls env st2.maxRolls d1 history1
            ⟨none, some newHistoryName, st2, pr.1, pr.2⟩
          else ⟨none, some newHistoryName, st2, d1, []⟩

/-- `createFileAndFolderIfNeeded` (rollingfile.go): make the directory tree
(the constructor guarantees a nonempty directory path, so `MkdirAll` always
runs); set `currentName` from the policy's `getCurrentFileName` (the base
file name); open the active file in write/append/create mode — existing
content is kept, a missing file is created empty; stat it, and on stat
failure close and clear the handle; record the observed size. -/
def createFileAndFolderIfNeeded (env : IOEnv) (st : HookState) (d : Disk) :
    Option IOErr × HookState × Disk :=
  if env.mkdirFails then (some .mkdirErr, st, d)
  else
    let st1 := { st with currentName := st.fileName }
    if env.openFails then (some .openErr, st1, d)
    else
      let opened : Str × Disk :=
        match dLookup d st1.currentName with
        | some c => (c, d)
        | none => ([], dSet d st1.currentName [])
      let st2 := { st1 with currentFile := some () }
      if env.statFails then
        (some .statErr, { st2 with currentFile := none }, opened.2)
      else
        (none, { st2 with currentFileSize := opened.1.length }, opened.2)

/-- One `Fire` call's inputs: the two clock samples (`needsToRoll` and
`getNewHistoryRollFileName` each call `time.Now()`) and the formatter's
outcome (`none` = `Format` error, otherwise the serialized bytes). -/
structure FireInput where
  nowCheck : Nat
  nowRoll : Nat
  formatted : Option Str

/-- Result of one `Fire` call. -/
structure FireResult where
  err : Option IOErr
  rolled : Option Str
  st : HookState
  disk : Disk
  warnings : List Str

/-- Formatting and size bookkeeping at the end of `Fire`: serialize via the
formatter (propagating its error) and add the serialized byte length to the
tracked size. -/
def fireFormat (inp : FireInput) (rolled : Option Str) (st : HookState)
    (d : Disk) (ws : List Str) : FireResult :=
  match inp.formatted with
  | none => ⟨some .formatErr, rolled, st, d, ws⟩
  | some s =>
    ⟨none, rolled, { st with currentFileSize := st.currentFileSize + s.length },
      d, ws⟩

/-- The tail of `Fire` after the (possible) roll: lazy open of the active
file when no handle is open, then formatting and size accounting. -/
def fireAfterRoll (env : IOEnv) (inp : FireInput) (rolled : Option Str)
    (st : HookState) (d : Disk) (ws : List Str) : FireResult :=
  match st.currentFile with
  | none =>
    match createFileAndFolderIfNeeded env st d with
    | (some e, st1, d1) => ⟨some e, rolled, st1, d1, ws⟩
    | (none, st1, d1) => fireFormat inp rolled st1 d1 ws
  | some _ => fireFormat inp rolled st d ws

/-- `Fire` (time hook): under the roll lock, roll when the policy asks
(propagating roll errors); open the active file when no handle is open
(first use or post-roll), propagating open errors; format the record
(propagating format errors); add the serialized length to the tracked size.
The actual byte write is the caller's (logrus's) concern once its output is
pointed at the handle. -/
def fire (goSort : List Str → List Str) (p : TimePattern) (env : IOEnv)
    (inp : FireInput) (st : HookState) (d : Disk) : FireResult :=
  let checked := needsToRoll p inp.nowCheck st
  if checked.1 then
    let r := roll goSort p env inp.nowRoll checked.2 d
    match r.err with
    | some e => ⟨some e, r.rolled, r.st, r.disk, r.warnings⟩
    | none => fireAfterRoll env inp r.rolled r.st r.disk r.warnings
  else fireAfterRoll env inp none checked.2 d []

/-- Aggregate result of a sequence of `Fire` calls. -/
structure TraceResult where
  st : HookState
  disk : Disk
  errs : List (Option IOErr)
  rolls : List Str

/-- Run a sequence of `Fire` calls, each with its own environment and
inputs, collecting per-call results and the history names created by rolls. -/
def fireTrace (goSort : List Str → List Str) (p : TimePattern) :
    List (IOEnv × FireInput) → HookState → Disk → TraceResult
  | [], st, d => ⟨st, d, [], []⟩
  | (env, inp) :: rest, st, d =>
    let r := fire goSort p env inp st d
    let t := fireTrace goSort p rest r.st r.disk
    ⟨t.st, t.disk, r.err :: t.errs,
      match r.rolled with
      | some n => n :: t.rolls
      | none => t.rolls⟩

/-- The fresh state `NewRollingFileTimeHook` builds for base name `fn` and
retention limit `maxr` (before any write). -/
def initState (fn : Str) (maxr : Int) : HookState :=
  ⟨fn, maxr, none, [], 0, []⟩

/-- Decimal digit value, for the concrete layout used in witnesses. -/
def digitVal (c : Char) : Option Nat :=
  if '0' ≤ c ∧ c ≤ '9' then some (c.toNat - '0'.toNat) else none

/-- Helper for `parseDec`. -/
def parseDecAux : Str → Nat → Option Nat
  | [], acc => some acc
  | c :: cs, acc =>
    match digitVal c with
    | none => none
    | some v => parseDecAux cs (acc * 10 + v)

/-- A concrete parse function for witnesses: nonempty decimal strings. -/
def parseDec : Str → Option Nat
  | [] => none
  | s => parseDecAux s 0

/-- A concrete `TimePattern` used by witnesses: instants rendered and parsed
as decimal numbers. -/
def natPattern : TimePattern := ⟨fun n => Nat.toDigits 10 n, parseDec⟩

/-- The non-strict ordering on tails induced by the time comparator. -/
def witSortRel (p : TimePattern) (a b : Str) : Prop :=
  timeKey p a ≤ timeKey p b

instance (p : TimePattern) : DecidableRel (witSortRel p) :=
  fun a b => Nat.decLe (timeKey p a) (timeKey p b)

instance (p : TimePattern) : IsTotal Str (witSortRel p) :=
  ⟨fun a b => Nat.le_total (timeKey p a) (timeKey p b)⟩

instance (p : TimePattern) : IsTrans Str (witSortRel p) :=
  ⟨fun _ _ _ => Nat.le_trans⟩

/-- A concrete implementation meeting the `sort.Sort` contract (used to
instantiate witnesses): insertion sort by the time comparator. -/
def witSort (p : TimePattern) : List Str → List Str :=
  List.insertionSort (witSortRel p)

/-- Another implementation meeting the `sort.Sort` contract: reverse, then
insertion-sort.  It disagrees with `witSort` on the relative order of
equal-key elements, which is exactly what the contract leaves open. -/
def badSort (p : TimePattern) : List Str → List Str :=
  fun l => witSort p l.reverse

/-- The directory scan steps of `getDirFilePaths` all succeed. -/
def ScanOk (env : IOEnv) : Prop :=
  env.scan.openDirFails = false ∧
    (env.scan.dirIsAbs = true ∨ env.scan.absFails = false) ∧
    env.scan.readdirFails = false

/-- Every fallible OS call of a `Fire` succeeds, except that individual
history deletions may still fail (`removeFails` is unconstrained). -/
def GoodEnv (env : IOEnv) : Prop :=
  env.closeFails = false ∧ ScanOk env ∧ env.renameFails = false ∧
    env.mkdirFails = false ∧ env.openFails = false ∧ env.statFails = false

/-- The tails the history reconstruction keeps for base name `base` from
disk `d` (before sorting). -/
def scannedTails (p : TimePattern) (base : Str) (d : Disk) : List Str :=
  (((dNames d).filter (hasRollName base)).map
    (getFileRollName base)).filter (isFileRollNameValid p)

/-- The history files present on disk `d` for base name `base`: names with
the roll prefix whose tail the policy accepts. -/
def historyFilesOn (p : TimePattern) (base : Str) (d : Disk) : List Str :=
  (dNames d).filter
    (fun f => hasRollName base f && isFileRollNameValid p (getFileRollName base f))

/-- Collapse consecutive duplicates: the sequence of time-bucket runs. -/
def condense : List Str → List Str
  | [] => []
  | [a] => [a]
  | a :: b :: r => if a = b then condense (b :: r) else a :: condense (b :: r)

/-- The bucket labels of a `Fire` input sequence (one per call, from the
`needsToRoll` clock sample). -/
def labelsOf (p : TimePattern) (inputs : List (IOEnv × FireInput)) : List Str :=
  inputs.map (fun ei => p.fmt ei.2.nowCheck)

/-- A steady running state: the handle is open on the base-named file, the
base file exists, and a bucket label is remembered. -/
def Established (st : HookState) (d : Disk) : Prop :=
  st.currentFile = some () ∧ st.currentName = st.fileName ∧
    st.currentTimeFileName ≠ [] ∧ ∃ c, dLookup d st.fileName = some c

/-- A well-formed disk: file names are unique (as in a real directory). -/
def DiskWF (d : Disk) : Prop := (dNames d).Nodup

/-- One `Fire` input is benign: its environment is good, both clock samples
fall in the same bucket, that bucket's label is nonempty (so it cannot be
confused with the first-call sentinel), and formatting succeeds. -/
def BenignStep (p : TimePattern) (ei : IOEnv × FireInput) : Prop :=
  GoodEnv ei.1 ∧ p.fmt ei.2.nowCheck = p.fmt ei.2.nowRoll ∧
    p.fmt ei.2.nowCheck ≠ [] ∧ ∃ s, ei.2.formatted = some s

/-- The reconstructed sorted history (full file names), as
`getSortedLogHistory` returns it on a successful scan. -/
def scannedHistory (goSort : List Str → List Str) (p : TimePattern)
    (base : Str) (d : Disk) : List Str :=
  (goSort (scannedTails p base d)).map (createFullFileName base)

/-- The history name `roll` renames the active file to: the base name, the
delimiter, and the remembered (previous) bucket label. -/
def newHistoryNameOf (st : HookState) : Str :=
  createFullFileName st.fileName st.currentTimeFileName

/-! ## Basic lemmas about the embedded primitives -/

lemma strHasPre_iff (pre f : Str) :
    strHasPre pre f = true ↔ ∃ t, f = pre ++ t := by
  induction pre generalizing f with
  | nil => simp [strHasPre]
  | cons a as ih =>
    cases f with
    | nil => simp [strHasPre]
    | cons b bs =>
      simp only [strHasPre, Bool.and_eq_true, decide_eq_true_eq, ih,
        List.cons_append, List.cons.injEq]
      constructor
      · rintro ⟨rfl, t, rfl⟩
        exact ⟨t, rfl, rfl⟩
      · rintro ⟨t, rfl, rfl⟩
        exact ⟨rfl, t, rfl⟩

lemma hasRollName_iff (base f : Str) :
    hasRollName base f = true ↔
      ∃ t, f = base ++ rollingLogHistoryDelimiter ++ t := by
  simpa [hasRollName, List.append_assoc] using
    strHasPre_iff (base ++ rollingLogHistoryDelimiter) f

lemma getFileRollName_full (base t : Str) :
    getFileRollName base (createFullFileName base t) = t := by
  simp only [getFileRollName, createFullFileName, ← List.append_assoc]
  exact List.drop_left _ _

lemma hasRollName_full (base t : Str) :
    hasRollName base (createFullFileName base t) = true := by
  rw [hasRollName_iff]
  exact ⟨t, rfl⟩

lemma hasRollName_decomp {base f : Str} (h : hasRollName base f = true) :
    createFullFileName base (getFileRollName base f) = f := by
  obtain ⟨t, rfl⟩ := (hasRollName_iff base f).mp h
  rw [show base ++ rollingLogHistoryDelimiter ++ t
      = createFullFileName base t from rfl, getFileRollName_full]

lemma hasRollName_ne_base {base f : Str} (h : hasRollName base f = true) :
    f ≠ base := by
  obtain ⟨t, rfl⟩ := (hasRollName_iff base f).mp h
  intro he
  have hl := congrArg List.length he
  simp [rollingLogHistoryDelimiter] at hl

lemma createFullFileName_inj (base : Str) {t1 t2 : Str}
    (h : createFullFileName base t1 = createFullFileName base t2) : t1 = t2 := by
  simp only [createFullFileName, List.append_assoc] at h
  have h1 := List.append_cancel_left h
  exact List.append_cancel_left h1

lemma dLookup_isSome_iff (d : Disk) (n : Str) :
    (dLookup d n).isSome ↔ n ∈ dNames d := by
  induction d with
  | nil => simp [dLookup, dNames]
  | cons kv rest ih =>
    by_cases hk : kv.1 = n
    · simp [dLookup, dNames, hk]
    · have hk2 : ¬ n = kv.1 := fun h => hk h.symm
      simp [dLookup, dNames, hk, hk2, ih]

lemma dLookup_dErase (d : Disk) (n x : Str) :
    dLookup (dErase d n) x = if x = n then none else dLookup d x := by
  induction d with
  | nil => simp [dErase, dLookup]
  | cons kv rest ih =>
    by_cases hk : kv.1 = n <;> by_cases hx : x = n <;>
      by_cases hkx : kv.1 = x <;>
      simp_all [dErase, List.filter_cons, dLookup]

lemma dLookup_dSet (d : Disk) (n c x : Str) :
    dLookup (dSet d n c) x = if n = x then some c else dLookup d x := by
  by_cases h : n = x
  · simp [dSet, dLookup, h]
  · have h2 : ¬ x = n := fun he => h he.symm
    simp [dSet, dLookup, h, h2, dLookup_dErase]

lemma getDirFilePaths_nameMode_ok (env : ScanEnv) (listing : List (Str × Bool))
    (h1 : env.openDirFails = false)
    (h2 : env.dirIsAbs = true ∨ env.absFails = false)
    (h3 : env.readdirFails = false) :
    getDirFilePaths env listing none true
      = .ok (listing.filterMap fun e => if e.2 then some e.1 else none) := by
  rcases h2 with h2 | h2 <;> simp [getDirFilePaths, h1, h2, h3]

lemma scan_dListing (d : Disk) :
    ((dListing d).filterMap fun e => if e.2 then some e.1 else none)
      = dNames d := by
  induction d with
  | nil => rfl
  | cons kv rest ih =>
    simpa [dListing, dNames, List.filterMap_cons] using ih

lemma getSortedLogHistory_ok (goSort : List Str → List Str) (p : TimePattern)
    (env : IOEnv) (st : HookState) (d : Disk) (h : ScanOk env) :
    getSortedLogHistory goSort p env st d
      = .ok ((goSort (scannedTails p st.fileName d)).map
          (createFullFileName st.fileName)) := by
  obtain ⟨h1, h2, h3⟩ := h
  unfold getSortedLogHistory
  rw [getDirFilePaths_nameMode_ok env.scan _ h1 h2 h3, scan_dListing]
  simp [sortFileRollNamesAsc, scannedTails]

lemma rollTimeLess_false_iff (p : TimePattern) (a b : Str) :
    rollTimeLess p b a = false ↔ timeKey p a ≤ timeKey p b := by
  simp [rollTimeLess, Nat.not_lt]

theorem witSort_contract (p : TimePattern) : GoSortContract p (witSort p) := by
  constructor
  · exact fun l => List.perm_insertionSort (witSortRel p) l
  · intro l
    have h := List.sorted_insertionSort (witSortRel p) l
    exact List.Pairwise.imp
      (fun hab => (rollTimeLess_false_iff p _ _).mpr hab) h

theorem badSort_contract (p : TimePattern) : GoSortContract p (badSort p) := by
  constructor
  · intro l
    exact ((witSort_contract p).perm l.reverse).trans (List.reverse_perm l)
  · intro l
    exact (witSort_contract p).sorted l.reverse

lemma tryRemoveFile_lookup (env : IOEnv) (d : Disk) (path x : Str) :
    dLookup (tryRemoveFile env d path).2 x
      = if x = path ∧ env.removeFails path = false then none
        else dLookup d x := by
  unfold tryRemoveFile osRemove
  cases hl : dLookup d path with
  | none =>
    by_cases hx : x = path
    · by_cases hf : env.removeFails path = false <;> simp [hx, hf, hl]
    · simp [hx]
  | some c =>
    by_cases hf : env.removeFails path
    · simp [hf]
    · simp [hf, dLookup_dErase]

lemma tryRemoveFile_err (env : IOEnv) (d : Disk) (path : Str) (e : RmErr)
    (h : (tryRemoveFile env d path).1 = some e) :
    env.removeFails path = true := by
  unfold tryRemoveFile osRemove at h
  cases hl : dLookup d path with
  | none => simp [hl] at h
  | some c =>
    by_cases hf : env.removeFails path
    · exact hf
    · simp [hl, hf] at h

lemma pruneFold_disk_lookup (env : IOEnv) (names : List Str) :
    ∀ (d : Disk) (ws : List Str) (x : Str),
      dLookup (names.foldl (pruneStep env) (d, ws)).1 x
        = if x ∈ names ∧ env.removeFails x = false then none
          else dLookup d x := by
  induction names with
  | nil => intro d ws x; simp
  | cons a rest ih =>
    intro d ws x
    have hstep : (pruneStep env (d, ws) a).1 = (tryRemoveFile env d a).2 := by
      unfold pruneStep
      cases h : tryRemoveFile env d a with
      | mk e d1 => cases e <;> simp
    rw [List.foldl_cons]
    have := ih (pruneStep env (d, ws) a).1 (pruneStep env (d, ws) a).2 x
    rw [show rest.foldl (pruneStep env) (pruneStep env (d, ws) a)
        = rest.foldl (pruneStep env)
            ((pruneStep env (d, ws) a).1, (pruneStep env (d, ws) a).2) from rfl,
      this, hstep, tryRemoveFile_lookup]
    by_cases hx : x ∈ rest <;> by_cases hf : env.removeFails x = false <;>
      by_cases hxa : x = a <;> simp_all

lemma pruneFold_warnings (env : IOEnv) (names : List Str) :
    ∀ (d : Disk) (ws : List Str) (w : Str),
      w ∈ (names.foldl (pruneStep env) (d, ws)).2 →
        w ∈ ws ∨ env.removeFails w = true := by
  induction names with
  | nil =>
    intro d ws w h
    exact Or.inl h
  | cons a rest ih =>
    intro d ws w h
    rw [List.foldl_cons] at h
    rcases ih (pruneStep env (d, ws) a).1 (pruneStep env (d, ws) a).2 w h with
      hw | hf
    · unfold pruneStep at hw
      cases htr : tryRemoveFile env d a with
      | mk e d1 =>
        cases e with
        | none =>
          rw [htr] at hw
          exact Or.inl hw
        | some e2 =>
          rw [htr] at hw
          simp only [List.mem_append, List.mem_singleton] at hw
          rcases hw with hw | rfl
          · exact Or.inl hw
          · exact Or.inr (tryRemoveFile_err env d w e2 (by rw [htr]))
    · exact Or.inr hf

lemma roll_ok (goSort : List Str → List Str) (p : TimePattern) (env : IOEnv)
    (now : Nat) (st : HookState) (d : Disk) (c : Str)
    (hfile : st.currentFile = some ())
    (hclose : env.closeFails = false)
    (hscan : ScanOk env)
    (hren : env.renameFails = false)
    (hcur : dLookup d st.currentName = some c) :
    roll goSort p env now st d =
      (if ((scannedHistory goSort p st.fileName d
              ++ [newHistoryNameOf st]).length : Int) > st.maxRolls then
        ⟨none, some (newHistoryNameOf st),
          { st with currentFile := none, currentTimeFileName := p.fmt now },
          (deleteOldRolls env st.maxRolls
            (dSet (dErase d st.currentName) (newHistoryNameOf st) c)
            (scannedHistory goSort p st.fileName d
              ++ [newHistoryNameOf st])).1,
          (deleteOldRolls env st.maxRolls
            (dSet (dErase d st.currentName) (newHistoryNameOf st) c)
            (scannedHistory goSort p st.fileName d
              ++ [newHistoryNameOf st])).2⟩
      else ⟨none, some (newHistoryNameOf st),
          { st with currentFile := none, currentTimeFileName := p.fmt now },
          dSet (dErase d st.currentName) (newHistoryNameOf st) c,
          []⟩ : RollResult) := by
  unfold roll
  rw [hfile]
  simp only [hclose, Bool.false_eq_true, if_false]
  rw [getSortedLogHistory_ok goSort p env _ d hscan]
  simp only [osRename, hren, Bool.false_eq_true, if_false]
  rw [show ({ st with currentFile := none } : HookState).currentName
      = st.currentName from rfl, hcur]
  simp [scannedHistory, newHistoryNameOf]

lemma scannedTails_mem {p : TimePattern} {base : Str} {d : Disk} {t : Str}
    (h : t ∈ scannedTails p base d) :
    createFullFileName base t ∈ dNames d ∧ isFileRollNameValid p t = true := by
  unfold scannedTails at h
  rw [List.mem_filter] at h
  obtain ⟨hmem, hvalid⟩ := h
  rw [List.mem_map] at hmem
  obtain ⟨g, hg, rfl⟩ := hmem
  rw [List.mem_filter] at hg
  obtain ⟨hgd, hgroll⟩ := hg
  rw [hasRollName_decomp hgroll]
  exact ⟨hgd, hvalid⟩

lemma scannedHistory_mem {goSort : List Str → List Str} {p : TimePattern}
    {base : Str} {d : Disk} (hsort : GoSortContract p goSort) {f : Str}
    (h : f ∈ scannedHistory goSort p base d) :
    f ∈ dNames d ∧ hasRollName base f = true ∧
      isFileRollNameValid p (getFileRollName base f) = true := by
  unfold scannedHistory at h
  rw [List.mem_map] at h
  obtain ⟨t, ht, rfl⟩ := h
  have ht2 : t ∈ scannedTails p base d := (hsort.perm _).mem_iff.mp ht
  obtain ⟨hd, hv⟩ := scannedTails_mem ht2
  refine ⟨hd, hasRollName_full base t, ?_⟩
  rw [getFileRollName_full]
  exact hv

lemma scannedTails_nodup (p : TimePattern) (base : Str) (d : Disk)
    (hwf : DiskWF d) : (scannedTails p base d).Nodup := by
  unfold scannedTails
  apply List.Nodup.filter
  apply List.Nodup.map_on ?_ (hwf.filter _)
  intro x hx y hy hxy
  rw [List.mem_filter] at hx hy
  calc x = createFullFileName base (getFileRollName base x) :=
        (hasRollName_decomp hx.2).symm
    _ = createFullFileName base (getFileRollName base y) := by rw [hxy]
    _ = y := hasRollName_decomp hy.2

lemma scannedHistory_nodup (goSort : List Str → List Str) (p : TimePattern)
    (base : Str) (d : Disk) (hsort : GoSortContract p goSort) (hwf : DiskWF d) :
    (scannedHistory goSort p base d).Nodup := by
  unfold scannedHistory
  apply List.Nodup.map
  · intro t1 t2 h
    exact createFullFileName_inj base h
  · exact ((hsort.perm _).nodup_iff).mpr (scannedTails_nodup p base d hwf)

lemma scannedHistory_sorted (goSort : List Str → List Str) (p : TimePattern)
    (base : Str) (d : Disk) (hsort : GoSortContract p goSort) :
    (scannedHistory goSort p base d).Pairwise
      (fun a b => timeKey p (getFileRollName base a)
        ≤ timeKey p (getFileRollName base b)) := by
  unfold scannedHistory
  rw [List.pairwise_map]
  refine List.Pairwise.imp ?_ (hsort.sorted _)
  intro a b hab
  rw [getFileRollName_full, getFileRollName_full]
  exact (rollTimeLess_false_iff p _ _).mp hab

/-- Claim C2 (amended): for every roll with retention limit L > 0 whose
reconstructed sorted history plus the newly renamed file has H > L entries,
provided the new history name does not collide with a reconstructed entry
and the new entry's time key is at least every reconstructed entry's key,
the roll succeeds, exactly the H − L oldest entries (the first H − L of the
ascending list) are removed from disk, nothing else is removed beyond the
renamed active file, and exactly L history entries remain on disk. -/
theorem c2_amended (goSort : List Str → List Str) (p : TimePattern)
    (env : IOEnv) (now : Nat) (st : HookState) (d : Disk) (c : Str)
    (full : List Str) (k : Nat)
    (hsort : GoSortContract p goSort)
    (hwf : DiskWF d)
    (hfile : st.currentFile = some ())
    (hname : st.currentName = st.fileName)
    (hcur : dLookup d st.currentName = some c)
    (hclose : env.closeFails = false)
    (hscan : ScanOk env)
    (hren : env.renameFails = false)
    (hrm : ∀ x, env.removeFails x = false)
    (hL : 0 < st.maxRolls)
    (hnocol : newHistoryNameOf st ∉ scannedHistory goSort p st.fileName d)
    (hnewest : ∀ t ∈ scannedTails p st.fileName d,
        timeKey p t ≤ timeKey p st.currentTimeFileName)
    (hfull : full = scannedHistory goSort p st.fileName d ++ [newHistoryNameOf st])
    (hH : st.maxRolls < (full.length : Int))
    (hk : (k : Int) = (full.length : Int) - st.maxRolls) :
    (roll goSort p env now st d).err = none ∧
    (full.take k).length = k ∧
    (∀ f ∈ full.take k, dLookup (roll goSort p env now st d).disk f = none) ∧
    ((full.drop k).length : Int) = st.maxRolls ∧
    (∀ f ∈ full.drop k,
      (dLookup (roll goSort p env now st d).disk f).isSome = true) ∧
    (∀ g, g ∉ full.take k → g ≠ st.currentName → g ≠ newHistoryNameOf st →
      dLookup (roll goSort p env now st d).disk g = dLookup d g) ∧
    full.Pairwise (fun a b => timeKey p (getFileRollName st.fileName a)
      ≤ timeKey p (getFileRollName st.fileName b)) := by
  have hroll := roll_ok goSort p env now st d c hfile hclose hscan hren hcur
  rw [← hfull] at hroll
  have hcond : (full.length : Int) > st.maxRolls := hH
  rw [if_pos hcond] at hroll
  have hdel : deleteOldRolls env st.maxRolls
      (dSet (dErase d st.currentName) (newHistoryNameOf st) c) full
      = (full.take k).foldl (pruneStep env)
          (dSet (dErase d st.currentName) (newHistoryNameOf st) c, []) := by
    simp only [deleteOldRolls]
    rw [if_neg (by omega), if_neg (by omega),
      show (((full.length : Int)) - st.maxRolls).toNat = k from by omega]
  have herr : (roll goSort p env now st d).err = none := by rw [hroll]
  have hdisk : (roll goSort p env now st d).disk
      = ((full.take k).foldl (pruneStep env)
          (dSet (dErase d st.currentName) (newHistoryNameOf st) c, [])).1 := by
    rw [hroll]
    show (deleteOldRolls env st.maxRolls _ full).1 = _
    rw [hdel]
  have hlook : ∀ x, dLookup (roll goSort p env now st d).disk x
      = if x ∈ full.take k then none
        else dLookup (dSet (dErase d st.currentName) (newHistoryNameOf st) c) x := by
    intro x
    rw [hdisk, pruneFold_disk_lookup]
    by_cases hx : x ∈ full.take k <;> simp [hx, hrm x]
  have hd1 : ∀ g, g ≠ st.currentName → g ≠ newHistoryNameOf st →
      dLookup (dSet (dErase d st.currentName) (newHistoryNameOf st) c) g
        = dLookup d g := by
    intro g h1 h2
    rw [dLookup_dSet, if_neg (fun he => h2 he.symm), dLookup_dErase, if_neg h1]
  have hd1N : dLookup (dSet (dErase d st.currentName) (newHistoryNameOf st) c)
      (newHistoryNameOf st) = some c := by
    rw [dLookup_dSet, if_pos rfl]
  have hSne : ∀ f ∈ scannedHistory goSort p st.fileName d, f ≠ st.currentName := by
    intro f hf
    rw [hname]
    exact hasRollName_ne_base (scannedHistory_mem hsort hf).2.1
  have hnodup : full.Nodup := by
    rw [hfull, List.nodup_append]
    refine ⟨scannedHistory_nodup _ _ _ _ hsort hwf, List.nodup_singleton _, ?_⟩
    intro a ha hb
    rw [List.mem_singleton] at hb
    subst hb
    exact hnocol ha
  have hklen : k ≤ full.length := by omega
  refine ⟨herr, ?_, ?_, ?_, ?_, ?_, ?_⟩
  · rw [List.length_take]
    omega
  · intro f hf
    rw [hlook f, if_pos hf]
  · rw [List.length_drop]
    omega
  · intro f hf
    have hfnotin : f ∉ full.take k := by
      have hdisj := List.disjoint_take_drop hnodup (le_refl k)
      intro hmem
      exact hdisj hmem hf
    rw [hlook f, if_neg hfnotin]
    have hffull : f ∈ full := by
      have : full.drop k ⊆ full := List.drop_subset k full
      exact this hf
    rw [hfull, List.mem_append, List.mem_singleton] at hffull
    rcases hffull with hfS | rfl
    · rw [hd1 f (hSne f hfS) (fun he => hnocol (he ▸ hfS))]
      exact (dLookup_isSome_iff d f).mpr (scannedHistory_mem hsort hfS).1
    · rw [hd1N]
      rfl
  · intro g hg h1 h2
    rw [hlook g, if_neg hg, hd1 g h1 h2]
  · rw [hfull, List.pairwise_append]
    refine ⟨scannedHistory_sorted _ _ _ _ hsort, List.pairwise_singleton _ _, ?_⟩
    intro a ha b hb
    rw [List.mem_singleton] at hb
    subst hb
    unfold scannedHistory at ha
    rw [List.mem_map] at ha
    obtain ⟨t, ht, rfl⟩ := ha
    rw [getFileRollName_full]
    rw [show getFileRollName st.fileName (newHistoryNameOf st)
        = st.currentTimeFileName from getFileRollName_full _ _]
    exact hnewest t ((hsort.perm _).mem_iff.mp ht)

/-- Claim C2, as stated, is false on the code: when the rename target
collides with an existing history entry (base `f`, limit L = 1, disk holding
`f.0` and the active `f`, remembered label `0`), the roll renames `f` onto
`f.0`, appends a duplicate entry, H = 2 > L = 1, and pruning then deletes
`f.0` — the just-renamed file — leaving 0 history entries instead of L = 1. -/
theorem c2_counterexample :
    (0 : Int) <
      (⟨['f'], 1, some (), ['f'], 0, ['0']⟩ : HookState).maxRolls ∧
    ((scannedHistory (witSort natPattern) natPattern ['f']
        [(['f', '.', '0'], ['x']), (['f'], ['y'])]).length : Int) + 1 = 2 ∧
    (roll (witSort natPattern) natPattern
        ⟨false, ⟨false, true, false, false, []⟩, false, false, false, false,
          fun _ => false⟩ 1
        ⟨['f'], 1, some (), ['f'], 0, ['0']⟩
        [(['f', '.', '0'], ['x']), (['f'], ['y'])]).err = none ∧
    (historyFilesOn natPattern ['f']
      (roll (witSort natPattern) natPattern
        ⟨false, ⟨false, true, false, false, []⟩, false, false, false, false,
          fun _ => false⟩ 1
        ⟨['f'], 1, some (), ['f'], 0, ['0']⟩
        [(['f', '.', '0'], ['x']), (['f'], ['y'])]).disk).length = 0 := by
  decide

theorem c2_amended_witness :
    GoSortContract natPattern (witSort natPattern) ∧
    DiskWF [(['f', '.', '1'], ['a']), (['f', '.', '0'], ['b']), (['f'], ['y'])] ∧
    newHistoryNameOf (⟨['f'], 1, some (), ['f'], 0, ['2']⟩ : HookState)
      ∉ scannedHistory (witSort natPattern) natPattern ['f']
          [(['f', '.', '1'], ['a']), (['f', '.', '0'], ['b']), (['f'], ['y'])] ∧
    (1 : Int) <
      ((scannedHistory (witSort natPattern) natPattern ['f']
          [(['f', '.', '1'], ['a']), (['f', '.', '0'], ['b']), (['f'], ['y'])]
        ++ [newHistoryNameOf
              (⟨['f'], 1, some (), ['f'], 0, ['2']⟩ : HookState)]).length : Int) ∧
    (roll (witSort natPattern) natPattern
      ⟨false, ⟨false, true, false, false, []⟩, false, false, false, false,
        fun _ => false⟩ 3
      ⟨['f'], 1, some (), ['f'], 0, ['2']⟩
      [(['f', '.', '1'], ['a']), (['f', '.', '0'], ['b']), (['f'], ['y'])]).err
      = none := by
  refine ⟨witSort_contract natPattern, by unfold DiskWF; decide, by decide,
    by decide, ?_⟩
  exact (c2_amended (witSort natPattern) natPattern
    ⟨false, ⟨false, true, false, false, []⟩, false, false, false, false,
      fun _ => false⟩ 3
    ⟨['f'], 1, some (), ['f'], 0, ['2']⟩
    [(['f', '.', '1'], ['a']), (['f', '.', '0'], ['b']), (['f'], ['y'])] ['y']
    (scannedHistory (witSort natPattern) natPattern ['f']
        [(['f', '.', '1'], ['a']), (['f', '.', '0'], ['b']), (['f'], ['y'])]
      ++ [newHistoryNameOf (⟨['f'], 1, some (), ['f'], 0, ['2']⟩ : HookState)])
    2
    (witSort_contract natPattern) (by unfold DiskWF; decide) rfl rfl
    (by decide) rfl
    (by exact ⟨rfl, Or.inl rfl, rfl⟩) rfl (fun x => rfl) (by decide)
    (by decide) (by decide) rfl (by decide) (by decide)).1

/-- Claim C5: with a non-positive retention limit a roll never removes any
file: the resulting disk is exactly the input disk with the active file
renamed to the new history name, every other file untouched. -/
theorem c5_unlimited_retention (goSort : List Str → List Str) (p : TimePattern)
    (env : IOEnv) (now : Nat) (st : HookState) (d : Disk) (c : Str)
    (hfile : st.currentFile = some ())
    (hclose : env.closeFails = false)
    (hscan : ScanOk env)
    (hren : env.renameFails = false)
    (hcur : dLookup d st.currentName = some c)
    (hL : st.maxRolls ≤ 0) :
    (roll goSort p env now st d).err = none ∧
    (roll goSort p env now st d).disk
      = dSet (dErase d st.currentName) (newHistoryNameOf st) c ∧
    (∀ f, f ≠ st.currentName → f ≠ newHistoryNameOf st →
      dLookup (roll goSort p env now st d).disk f = dLookup d f) ∧
    dLookup (roll goSort p env now st d).disk (newHistoryNameOf st)
      = some c := by
  have hroll := roll_ok goSort p env now st d c hfile hclose hscan hren hcur
  have hcond : ((scannedHistory goSort p st.fileName d
      ++ [newHistoryNameOf st]).length : Int) > st.maxRolls := by
    rw [List.length_append, List.length_singleton]
    push_cast
    omega
  rw [if_pos hcond] at hroll
  have hdel : deleteOldRolls env st.maxRolls
      (dSet (dErase d st.currentName) (newHistoryNameOf st) c)
      (scannedHistory goSort p st.fileName d ++ [newHistoryNameOf st])
      = (dSet (dErase d st.currentName) (newHistoryNameOf st) c, []) := by
    simp only [deleteOldRolls]
    rw [if_pos hL]
  have hdisk : (roll goSort p env now st d).disk
      = dSet (dErase d st.currentName) (newHistoryNameOf st) c := by
    rw [hroll]
    show (deleteOldRolls env st.maxRolls _ _).1 = _
    rw [hdel]
  refine ⟨by rw [hroll], hdisk, ?_, ?_⟩
  · intro f h1 h2
    rw [hdisk, dLookup_dSet, if_neg (fun he => h2 he.symm), dLookup_dErase,
      if_neg h1]
  · rw [hdisk, dLookup_dSet, if_pos rfl]

/-- Claim C9: an individual file-deletion failure never aborts the roll:
with arbitrary per-file removal failures the roll still returns no error,
every prunable entry whose removal does succeed is removed even when other
deletions fail, and failures surface only on the warnings side channel. -/
theorem c9_prune_best_effort (goSort : List Str → List Str) (p : TimePattern)
    (env : IOEnv) (now : Nat) (st : HookState) (d : Disk) (c : Str)
    (full : List Str) (k : Nat)
    (hfile : st.currentFile = some ())
    (hclose : env.closeFails = false)
    (hscan : ScanOk env)
    (hren : env.renameFails = false)
    (hcur : dLookup d st.currentName = some c)
    (hL : 0 < st.maxRolls)
    (hfull : full = scannedHistory goSort p st.fileName d
      ++ [newHistoryNameOf st])
    (hH : st.maxRolls < (full.length : Int))
    (hk : (k : Int) = (full.length : Int) - st.maxRolls) :
    (roll goSort p env now st d).err = none ∧
    (∀ f ∈ full.take k, env.removeFails f = false →
      dLookup (roll goSort p env now st d).disk f = none) ∧
    (∀ w ∈ (roll goSort p env now st d).warnings,
      env.removeFails w = true) := by
  have hroll := roll_ok goSort p env now st d c hfile hclose hscan hren hcur
  rw [← hfull] at hroll
  rw [if_pos (show (full.length : Int) > st.maxRolls from hH)] at hroll
  have hdel : deleteOldRolls env st.maxRolls
      (dSet (dErase d st.currentName) (newHistoryNameOf st) c) full
      = (full.take k).foldl (pruneStep env)
          (dSet (dErase d st.currentName) (newHistoryNameOf st) c, []) := by
    simp only [deleteOldRolls]
    rw [if_neg (by omega), if_neg (by omega),
      show (((full.length : Int)) - st.maxRolls).toNat = k from by omega]
  have hdisk : (roll goSort p env now st d).disk
      = ((full.take k).foldl (pruneStep env)
          (dSet (dErase d st.currentName) (newHistoryNameOf st) c, [])).1 := by
    rw [hroll]
    show (deleteOldRolls env st.maxRolls _ full).1 = _
    rw [hdel]
  have hwarn : (roll goSort p env now st d).warnings
      = ((full.take k).foldl (pruneStep env)
          (dSet (dErase d st.currentName) (newHistoryNameOf st) c, [])).2 := by
    rw [hroll]
    show (deleteOldRolls env st.maxRolls _ full).2 = _
    rw [hdel]
  refine ⟨by rw [hroll], ?_, ?_⟩
  · intro f hf hok
    rw [hdisk, pruneFold_disk_lookup]
    rw [if_pos ⟨hf, hok⟩]
  · intro w hw
    rw [hwarn] at hw
    rcases pruneFold_warnings env (full.take k) _ [] w hw with h | h
    · exact absurd h (List.not_mem_nil w)
    · exact h

theorem c5_unlimited_retention_witness :
    (⟨['f'], 0, some (), ['f'], 0, ['1']⟩ : HookState).maxRolls ≤ 0 ∧
    dLookup [(['f', '.', '0'], ['a']), (['f'], ['y'])]
      (⟨['f'], 0, some (), ['f'], 0, ['1']⟩ : HookState).currentName
      = some ['y'] ∧
    (roll (witSort natPattern) natPattern
      ⟨false, ⟨false, true, false, false, []⟩, false, false, false, false,
        fun _ => false⟩ 2
      ⟨['f'], 0, some (), ['f'], 0, ['1']⟩
      [(['f', '.', '0'], ['a']), (['f'], ['y'])]).err = none := by
  refine ⟨by decide, by decide, ?_⟩
  exact (c5_unlimited_retention (witSort natPattern) natPattern
    ⟨false, ⟨false, true, false, false, []⟩, false, false, false, false,
      fun _ => false⟩ 2
    ⟨['f'], 0, some (), ['f'], 0, ['1']⟩
    [(['f', '.', '0'], ['a']), (['f'], ['y'])] ['y']
    rfl rfl ⟨rfl, Or.inl rfl, rfl⟩ rfl (by decide) (by decide)).1

theorem c9_prune_best_effort_witness :
    (0 : Int) < (⟨['f'], 1, some (), ['f'], 0, ['2']⟩ : HookState).maxRolls ∧
    (roll (witSort natPattern) natPattern
      ⟨false, ⟨false, true, false, false, []⟩, false, false, false, false,
        fun s => decide (s = ['f', '.', '0'])⟩ 3
      ⟨['f'], 1, some (), ['f'], 0, ['2']⟩
      [(['f', '.', '0'], ['a']), (['f', '.', '1'], ['b']), (['f'], ['y'])]).err
      = none ∧
    (roll (witSort natPattern) natPattern
      ⟨false, ⟨false, true, false, false, []⟩, false, false, false, false,
        fun s => decide (s = ['f', '.', '0'])⟩ 3
      ⟨['f'], 1, some (), ['f'], 0, ['2']⟩
      [(['f', '.', '0'], ['a']), (['f', '.', '1'], ['b']),
        (['f'], ['y'])]).warnings = [['f', '.', '0']] := by
  refine ⟨by decide, ?_, by decide⟩
  exact (c9_prune_best_effort (witSort natPattern) natPattern
    ⟨false, ⟨false, true, false, false, []⟩, false, false, false, false,
      fun s => decide (s = ['f', '.', '0'])⟩ 3
    ⟨['f'], 1, some (), ['f'], 0, ['2']⟩
    [(['f', '.', '0'], ['a']), (['f', '.', '1'], ['b']), (['f'], ['y'])] ['y']
    (scannedHistory (witSort natPattern) natPattern ['f']
        [(['f', '.', '0'], ['a']), (['f', '.', '1'], ['b']), (['f'], ['y'])]
      ++ [newHistoryNameOf (⟨['f'], 1, some (), ['f'], 0, ['2']⟩ : HookState)])
    2
    rfl rfl ⟨rfl, Or.inl rfl, rfl⟩ rfl (by decide) (by decide) rfl (by decide)
    (by decide)).1

lemma createFile_ok (env : IOEnv) (st : HookState) (d : Disk)
    (hmk : env.mkdirFails = false) (hop : env.openFails = false)
    (hst : env.statFails = false) :
    ∃ c2 d2, createFileAndFolderIfNeeded env st d
        = (none,
            { st with
                currentName := st.fileName, currentFile := some (),
                currentFileSize := c2.length },
            d2) ∧
      dLookup d2 st.fileName = some c2 ∧
      ∀ g, g ≠ st.fileName → dLookup d2 g = dLookup d g := by
  unfold createFileAndFolderIfNeeded
  simp only [hmk, hop, hst, Bool.false_eq_true, if_false]
  cases hl : dLookup d st.fileName with
  | some c0 =>
    exact ⟨c0, d, rfl, hl, fun g _ => rfl⟩
  | none =>
    refine ⟨[], dSet d st.fileName [], rfl, ?_, ?_⟩
    · rw [dLookup_dSet, if_pos rfl]
    · intro g hg
      rw [dLookup_dSet, if_neg (fun he => hg he.symm)]

lemma fire_same_bucket (goSort : List Str → List Str) (p : TimePattern)
    (env : IOEnv) (inp : FireInput) (st : HookState) (d : Disk) (s : Str)
    (hlbl : st.currentTimeFileName ≠ [])
    (hsame : p.fmt inp.nowCheck = st.currentTimeFileName)
    (hfile : st.currentFile = some ())
    (hfmt : inp.formatted = some s) :
    fire goSort p env inp st d
      = ⟨none, none,
          { st with currentFileSize := st.currentFileSize + s.length },
          d, []⟩ := by
  have hneed : needsToRoll p inp.nowCheck st = (false, st) := by
    unfold needsToRoll
    rw [if_neg hlbl]
    simp [hsame]
  unfold fire
  rw [hneed]
  show fireAfterRoll env inp none st d [] = _
  unfold fireAfterRoll fireFormat
  rw [hfile, hfmt]

lemma fire_sentinel (goSort : List Str → List Str) (p : TimePattern)
    (env : IOEnv) (inp : FireInput) (st : HookState) (d : Disk) (s : Str)
    (hlbl : st.currentTimeFileName = [])
    (hfile : st.currentFile = none)
    (hmk : env.mkdirFails = false) (hop : env.openFails = false)
    (hst : env.statFails = false)
    (hfmt : inp.formatted = some s) :
    ∃ c2 d2,
      fire goSort p env inp st d
        = ⟨none, none,
            { st with
                currentName := st.fileName, currentFile := some (),
                currentFileSize := c2.length + s.length,
                currentTimeFileName := p.fmt inp.nowCheck },
            d2, []⟩ ∧
      dLookup d2 st.fileName = some c2 ∧
      ∀ g, g ≠ st.fileName → dLookup d2 g = dLookup d g := by
  obtain ⟨c2, d2, hcf, hl2, hother⟩ :=
    createFile_ok env { st with currentTimeFileName := p.fmt inp.nowCheck } d
      hmk hop hst
  refine ⟨c2, d2, ?_, hl2, hother⟩
  have hneed : needsToRoll p inp.nowCheck st
      = (false, { st with currentTimeFileName := p.fmt inp.nowCheck }) := by
    unfold needsToRoll
    rw [if_pos hlbl]
  unfold fire
  rw [hneed]
  show fireAfterRoll env inp none
    { st with currentTimeFileName := p.fmt inp.nowCheck } d [] = _
  unfold fireAfterRoll fireFormat
  rw [hfile] at hcf
  rw [hfile, hcf, hfmt]

lemma fireAfterRoll_open (env : IOEnv) (inp : FireInput) (rolled : Option Str)
    (st : HookState) (d : Disk) (ws : List Str) (s : Str)
    (hfile : st.currentFile = none)
    (hmk : env.mkdirFails = false) (hop : env.openFails = false)
    (hst : env.statFails = false)
    (hfmt : inp.formatted = some s) :
    ∃ c2 d2, fireAfterRoll env inp rolled st d ws
        = ⟨none, rolled,
            { st with
                currentName := st.fileName, currentFile := some (),
                currentFileSize := c2.length + s.length },
            d2, ws⟩ ∧
      dLookup d2 st.fileName = some c2 ∧
      ∀ g, g ≠ st.fileName → dLookup d2 g = dLookup d g := by
  obtain ⟨c2, d2, hcf, hl2, hother⟩ := createFile_ok env st d hmk hop hst
  refine ⟨c2, d2, ?_, hl2, hother⟩
  unfold fireAfterRoll fireFormat
  rw [hfile, hcf, hfmt]

lemma fire_roll_step (goSort : List Str → List Str) (p : TimePattern)
    (env : IOEnv) (inp : FireInput) (st : HookState) (d : Disk) (c s : Str)
    (hclose : env.closeFails = false)
    (hscan : ScanOk env)
    (hren : env.renameFails = false)
    (hmk : env.mkdirFails = false) (hop : env.openFails = false)
    (hstt : env.statFails = false)
    (hlbl : st.currentTimeFileName ≠ [])
    (hdiff : p.fmt inp.nowCheck ≠ st.currentTimeFileName)
    (hfile : st.currentFile = some ())
    (hname : st.currentName = st.fileName)
    (hcur : dLookup d st.fileName = some c)
    (hfmt : inp.formatted = some s) :
    (fire goSort p env inp st d).err = none ∧
    (fire goSort p env inp st d).rolled = some (newHistoryNameOf st) ∧
    (fire goSort p env inp st d).st.fileName = st.fileName ∧
    (fire goSort p env inp st d).st.currentName = st.fileName ∧
    (fire goSort p env inp st d).st.currentFile = some () ∧
    (fire goSort p env inp st d).st.currentTimeFileName = p.fmt inp.nowRoll ∧
    ∃ c2, dLookup (fire goSort p env inp st d).disk st.fileName = some c2 := by
  have h1 : (needsToRoll p inp.nowCheck st).1 = true := by
    unfold needsToRoll
    rw [if_neg hlbl]
    simp [hdiff]
  have h2 : (needsToRoll p inp.nowCheck st).2 = st := by
    unfold needsToRoll
    rw [if_neg hlbl]
  have hcur2 : dLookup d st.currentName = some c := by
    rw [hname]
    exact hcur
  have hroll :=
    roll_ok goSort p env inp.nowRoll st d c hfile hclose hscan hren hcur2
  have herr : (roll goSort p env inp.nowRoll st d).err = none := by
    rw [hroll]
    split <;> rfl
  have hrolled : (roll goSort p env inp.nowRoll st d).rolled
      = some (newHistoryNameOf st) := by
    rw [hroll]
    split <;> rfl
  have hst2 : (roll goSort p env inp.nowRoll st d).st
      = { st with
            currentFile := none,
            currentTimeFileName := p.fmt inp.nowRoll } := by
    rw [hroll]
    split <;> rfl
  have hfileN : (roll goSort p env inp.nowRoll st d).st.currentFile = none := by
    rw [hst2]
  obtain ⟨c2, d2, heq, hl2, hother⟩ :=
    fireAfterRoll_open env inp (roll goSort p env inp.nowRoll st d).rolled
      (roll goSort p env inp.nowRoll st d).st
      (roll goSort p env inp.nowRoll st d).disk
      (roll goSort p env inp.nowRoll st d).warnings s hfileN hmk hop hstt hfmt
  have hfire : fire goSort p env inp st d
      = fireAfterRoll env inp (roll goSort p env inp.nowRoll st d).rolled
          (roll goSort p env inp.nowRoll st d).st
          (roll goSort p env inp.nowRoll st d).disk
          (roll goSort p env inp.nowRoll st d).warnings := by
    simp only [fire]
    rw [h1, h2, herr]
    rfl
  rw [hfire, heq]
  rw [hst2] at hl2 ⊢
  exact ⟨rfl, hrolled, rfl, rfl, rfl, rfl, c2, hl2⟩

lemma dropLast_cons_ne {a : Str} {l : List Str} (h : l ≠ []) :
    (a :: l).dropLast = a :: l.dropLast := by
  cases l with
  | nil => exact absurd rfl h
  | cons b r => rfl

lemma condense_cons_cons (a b : Str) (r : List Str) :
    condense (a :: b :: r)
      = if a = b then condense (b :: r) else a :: condense (b :: r) := rfl

lemma condense_ne_nil : ∀ {l : List Str}, l ≠ [] → condense l ≠ []
  | [], h => absurd rfl h
  | [a], _ => by simp [condense]
  | a :: b :: r, _ => by
    rw [condense_cons_cons]
    split
    · exact condense_ne_nil (List.cons_ne_nil b r)
    · simp

lemma fireTrace_benign (goSort : List Str → List Str) (p : TimePattern) :
    ∀ (inputs : List (IOEnv × FireInput)) (st : HookState) (d : Disk),
      (∀ ei ∈ inputs, BenignStep p ei) →
      st.currentFile = some () →
      st.currentName = st.fileName →
      st.currentTimeFileName ≠ [] →
      (∃ c, dLookup d st.fileName = some c) →
      (fireTrace goSort p inputs st d).rolls
        = ((condense (st.currentTimeFileName :: labelsOf p inputs)).dropLast).map
            (createFullFileName st.fileName) ∧
      (∀ e ∈ (fireTrace goSort p inputs st d).errs, e = none) := by
  intro inputs
  induction inputs with
  | nil =>
    intro st d _ _ _ _ _
    constructor
    · simp [fireTrace, condense, labelsOf]
    · intro e he
      simp [fireTrace] at he
  | cons ei rest ih =>
    obtain ⟨env1, inp1⟩ := ei
    intro st d hben hfile hname hlbl hdisk
    obtain ⟨c, hc⟩ := hdisk
    obtain ⟨hgood, hnows, hlbl2, s, hfmt⟩ :=
      hben (env1, inp1) (List.mem_cons_self _ rest)
    obtain ⟨hclose, hscan, hren, hmk, hop, hstt⟩ := hgood
    have hbrest : ∀ x ∈ rest, BenignStep p x :=
      fun x hx => hben x (List.mem_cons_of_mem _ hx)
    have hlabels : labelsOf p ((env1, inp1) :: rest)
        = p.fmt inp1.nowCheck :: labelsOf p rest := rfl
    by_cases hsame : p.fmt inp1.nowCheck = st.currentTimeFileName
    · -- same bucket: no roll
      have hfeq := fire_same_bucket goSort p env1 inp1 st d s hlbl hsame
        hfile hfmt
      obtain ⟨ihr, ihe⟩ := ih
        { st with currentFileSize := st.currentFileSize + s.length } d
        hbrest hfile hname hlbl ⟨c, hc⟩
      have hrolls : (fireTrace goSort p ((env1, inp1) :: rest) st d).rolls
          = (fireTrace goSort p rest
              { st with currentFileSize := st.currentFileSize + s.length }
              d).rolls := by
        simp only [fireTrace, hfeq]
      have herrs : (fireTrace goSort p ((env1, inp1) :: rest) st d).errs
          = none :: (fireTrace goSort p rest
              { st with currentFileSize := st.currentFileSize + s.length }
              d).errs := by
        simp only [fireTrace, hfeq]
      constructor
      · rw [hrolls, ihr, hlabels, condense_cons_cons, if_pos hsame.symm, hsame]
      · intro e he
        rw [herrs] at he
        rcases List.mem_cons.mp he with rfl | he2
        · rfl
        · exact ihe e he2
    · -- bucket changed: roll
      have hdiff : p.fmt inp1.nowCheck ≠ st.currentTimeFileName := hsame
      obtain ⟨herr, hrolled, hfn, hcn, hcfl, hctfn, c2, hl2⟩ :=
        fire_roll_step goSort p env1 inp1 st d c s hclose hscan hren hmk hop
          hstt hlbl hdiff hfile hname hc hfmt
      obtain ⟨ihr, ihe⟩ := ih (fire goSort p env1 inp1 st d).st
        (fire goSort p env1 inp1 st d).disk hbrest hcfl
        (by rw [hcn, hfn]) (by rw [hctfn, ← hnows]; exact hlbl2)
        ⟨c2, by rw [hfn]; exact hl2⟩
      have hrolls : (fireTrace goSort p ((env1, inp1) :: rest) st d).rolls
          = newHistoryNameOf st
            :: (fireTrace goSort p rest (fire goSort p env1 inp1 st d).st
                (fire goSort p env1 inp1 st d).disk).rolls := by
        simp only [fireTrace]
        rw [hrolled]
      have herrs : (fireTrace goSort p ((env1, inp1) :: rest) st d).errs
          = none :: (fireTrace goSort p rest (fire goSort p env1 inp1 st d).st
              (fire goSort p env1 inp1 st d).disk).errs := by
        simp only [fireTrace]
        rw [herr]
      constructor
      · rw [hrolls, ihr, hfn, hctfn, ← hnows, hlabels, condense_cons_cons,
          if_neg (fun he => hdiff he.symm)]
        rw [dropLast_cons_ne (condense_ne_nil (List.cons_ne_nil _ _)),
          List.map_cons]
        rfl
      · intro e he
        rw [herrs] at he
        rcases List.mem_cons.mp he with rfl | he2
        · rfl
        · exact ihe e he2

/-- Claim C3: over any benign sequence of emits (all OS calls succeed, both
clock samples of each emit share a bucket, bucket labels are nonempty, the
distinct buckets in order of appearance are pairwise distinct), starting
from a fresh hook, every emit succeeds, the rolls create exactly one history
file per completed bucket — named base ++ delimiter ++ label of the
completed (previous) bucket, in order — so exactly N − 1 rolls and N − 1
distinct history names for N visited buckets; and the very first roll
decision only records the current bucket label and returns false. -/
theorem c3_bucket_rolls (goSort : List Str → List Str) (p : TimePattern)
    (fn : Str) (maxr : Int) (d : Disk)
    (inputs : List (IOEnv × FireInput)) (N : Nat)
    (hben : ∀ ei ∈ inputs, BenignStep p ei)
    (hne : inputs ≠ [])
    (hN : N = (condense (labelsOf p inputs)).length)
    (hnodup : (condense (labelsOf p inputs)).Nodup) :
    (∀ now, (needsToRoll p now (initState fn maxr)).1 = false ∧
      (needsToRoll p now (initState fn maxr)).2.currentTimeFileName
        = p.fmt now) ∧
    (∀ e ∈ (fireTrace goSort p inputs (initState fn maxr) d).errs, e = none) ∧
    (fireTrace goSort p inputs (initState fn maxr) d).rolls
      = ((condense (labelsOf p inputs)).dropLast).map (createFullFileName fn) ∧
    (fireTrace goSort p inputs (initState fn maxr) d).rolls.length = N - 1 ∧
    (fireTrace goSort p inputs (initState fn maxr) d).rolls.Nodup := by
  refine ⟨fun now => ⟨rfl, rfl⟩, ?_⟩
  obtain ⟨⟨env1, inp1⟩, rest, rfl⟩ :
      ∃ ei rest, inputs = ei :: rest := by
    cases inputs with
    | nil => exact absurd rfl hne
    | cons ei rest => exact ⟨ei, rest, rfl⟩
  obtain ⟨hgood, hnows, hlbl2, s, hfmt⟩ :=
    hben (env1, inp1) (List.mem_cons_self _ rest)
  obtain ⟨hclose, hscan, hren, hmk, hop, hstt⟩ := hgood
  have hbrest : ∀ x ∈ rest, BenignStep p x :=
    fun x hx => hben x (List.mem_cons_of_mem _ hx)
  obtain ⟨c2, d2, hfeq, hl2, hother⟩ :=
    fire_sentinel goSort p env1 inp1 (initState fn maxr) d s rfl rfl
      hmk hop hstt hfmt
  obtain ⟨ihr, ihe⟩ := fireTrace_benign goSort p rest
    { initState fn maxr with
        currentName := fn, currentFile := some (),
        currentFileSize := c2.length + s.length,
        currentTimeFileName := p.fmt inp1.nowCheck }
    d2 hbrest rfl rfl hlbl2 ⟨c2, hl2⟩
  have hrolls : (fireTrace goSort p ((env1, inp1) :: rest)
        (initState fn maxr) d).rolls
      = (fireTrace goSort p rest
          { initState fn maxr with
              currentName := fn, currentFile := some (),
              currentFileSize := c2.length + s.length,
              currentTimeFileName := p.fmt inp1.nowCheck } d2).rolls := by
    simp only [fireTrace, hfeq]
    rfl
  have herrs : (fireTrace goSort p ((env1, inp1) :: rest)
        (initState fn maxr) d).errs
      = none :: (fireTrace goSort p rest
          { initState fn maxr with
              currentName := fn, currentFile := some (),
              currentFileSize := c2.length + s.length,
              currentTimeFileName := p.fmt inp1.nowCheck } d2).errs := by
    simp only [fireTrace, hfeq]
    rfl
  have hlabels : labelsOf p ((env1, inp1) :: rest)
      = p.fmt inp1.nowCheck :: labelsOf p rest := rfl
  have hrollseq : (fireTrace goSort p ((env1, inp1) :: rest)
        (initState fn maxr) d).rolls
      = ((condense (labelsOf p ((env1, inp1) :: rest))).dropLast).map
          (createFullFileName fn) := by
    rw [hrolls, ihr, hlabels]
    rfl
  refine ⟨?_, hrollseq, ?_, ?_⟩
  · intro e he
    rw [herrs] at he
    rcases List.mem_cons.mp he with rfl | he2
    · rfl
    · exact ihe e he2
  · rw [hrollseq, List.length_map, List.length_dropLast, hN]
  · rw [hrollseq]
    refine (hnodup.sublist (List.dropLast_sublist _)).map ?_
    intro a b h12
    exact createFullFileName_inj fn h12

theorem c3_bucket_rolls_witness :
    [((⟨false, ⟨false, true, false, false, []⟩, false, false, false, false,
        fun _ => false⟩ : IOEnv), (⟨1, 1, some ['a']⟩ : FireInput)),
      ((⟨false, ⟨false, true, false, false, []⟩, false, false, false, false,
        fun _ => false⟩ : IOEnv), (⟨2, 2, some ['b']⟩ : FireInput))] ≠ [] ∧
    (condense (labelsOf natPattern
      [((⟨false, ⟨false, true, false, false, []⟩, false, false, false, false,
          fun _ => false⟩ : IOEnv), (⟨1, 1, some ['a']⟩ : FireInput)),
        ((⟨false, ⟨false, true, false, false, []⟩, false, false, false, false,
          fun _ => false⟩ : IOEnv),
          (⟨2, 2, some ['b']⟩ : FireInput))])).Nodup ∧
    (fireTrace (witSort natPattern) natPattern
      [((⟨false, ⟨false, true, false, false, []⟩, false, false, false, false,
          fun _ => false⟩ : IOEnv), (⟨1, 1, some ['a']⟩ : FireInput)),
        ((⟨false, ⟨false, true, false, false, []⟩, false, false, false, false,
          fun _ => false⟩ : IOEnv), (⟨2, 2, some ['b']⟩ : FireInput))]
      (initState ['f'] 5) []).rolls = [['f', '.', '1']] := by
  refine ⟨List.cons_ne_nil _ _, by decide, ?_⟩
  refine Eq.trans ?_ (by decide :
    ((condense (labelsOf natPattern
      [((⟨false, ⟨false, true, false, false, []⟩, false, false, false, false,
          fun _ => false⟩ : IOEnv), (⟨1, 1, some ['a']⟩ : FireInput)),
        ((⟨false, ⟨false, true, false, false, []⟩, false, false, false, false,
          fun _ => false⟩ : IOEnv),
          (⟨2, 2, some ['b']⟩ : FireInput))])).dropLast).map
      (createFullFileName ['f']) = [['f', '.', '1']])
  refine (c3_bucket_rolls (witSort natPattern) natPattern ['f'] 5 []
    [((⟨false, ⟨false, true, false, false, []⟩, false, false, false, false,
        fun _ => false⟩ : IOEnv), (⟨1, 1, some ['a']⟩ : FireInput)),
      ((⟨false, ⟨false, true, false, false, []⟩, false, false, false, false,
        fun _ => false⟩ : IOEnv), (⟨2, 2, some ['b']⟩ : FireInput))] 2
    ?_ (List.cons_ne_nil _ _) (by decide) (by decide)).2.2.1
  intro ei hei
  rcases List.mem_cons.mp hei with rfl | hei2
  · exact ⟨⟨rfl, ⟨rfl, Or.inl rfl, rfl⟩, rfl, rfl, rfl, rfl⟩, rfl,
      by decide, ['a'], rfl⟩
  rcases List.mem_cons.mp hei2 with rfl | hei3
  · exact ⟨⟨rfl, ⟨rfl, Or.inl rfl, rfl⟩, rfl, rfl, rfl, rfl⟩, rfl,
      by decide, ['b'], rfl⟩
  · exact absurd hei3 (List.not_mem_nil ei)

lemma getSortedLogHistory_dirOpenFail (goSort : List Str → List Str)
    (p : TimePattern) (env : IOEnv) (st : HookState) (d : Disk)
    (h : env.scan.openDirFails = true) :
    getSortedLogHistory goSort p env st d = .error .dirOpenErr := by
  unfold getSortedLogHistory getDirFilePaths
  rw [h]
  rfl

/-- Claim C1 fails on the code (code bug): entering `roll` with the active
file handle unset makes `(*os.File)(nil).Close()` return `os.ErrInvalid`
at once, so from a state with no handle and a stale nonempty bucket label
(reachable via a directory-scan failure during a roll, third conjunct),
every subsequent `Fire` whose bucket differs from the stale label fails
with `ErrInvalid`, never attempts an open, and changes nothing — writing is
permanently wedged, contradicting the claimed recoverability. -/
theorem c1_roll_failure_wedges (goSort : List Str → List Str)
    (p : TimePattern) (st : HookState) (d : Disk)
    (hfile : st.currentFile = none)
    (hlbl : st.currentTimeFileName ≠ []) :
    (∀ env inp, p.fmt inp.nowCheck ≠ st.currentTimeFileName →
      fire goSort p env inp st d
        = ⟨some .errInvalid, none, st, d, []⟩) ∧
    (∀ inputs : List (IOEnv × FireInput),
      (∀ ei ∈ inputs, p.fmt ei.2.nowCheck ≠ st.currentTimeFileName) →
      (fireTrace goSort p inputs st d).st = st ∧
      (fireTrace goSort p inputs st d).disk = d ∧
      (fireTrace goSort p inputs st d).errs
        = inputs.map (fun _ => some IOErr.errInvalid)) ∧
    (∀ (env : IOEnv) (inp : FireInput) (st0 : HookState) (d0 : Disk),
      st0.currentFile = some () → st0.currentTimeFileName ≠ [] →
      p.fmt inp.nowCheck ≠ st0.currentTimeFileName →
      env.closeFails = false → env.scan.openDirFails = true →
      fire goSort p env inp st0 d0
        = ⟨some .dirOpenErr, none, { st0 with currentFile := none },
            d0, []⟩) := by
  have hstep : ∀ env inp, p.fmt inp.nowCheck ≠ st.currentTimeFileName →
      fire goSort p env inp st d = ⟨some .errInvalid, none, st, d, []⟩ := by
    intro env inp hdiff
    have h1 : (needsToRoll p inp.nowCheck st).1 = true := by
      unfold needsToRoll
      rw [if_neg hlbl]
      simp [hdiff]
    have h2 : (needsToRoll p inp.nowCheck st).2 = st := by
      unfold needsToRoll
      rw [if_neg hlbl]
    have hr : roll goSort p env inp.nowRoll st d
        = ⟨some .errInvalid, none, st, d, []⟩ := by
      unfold roll
      rw [hfile]
    simp only [fire]
    rw [h1, h2, hr]
    rfl
  refine ⟨hstep, ?_, ?_⟩
  · intro inputs
    induction inputs with
    | nil =>
      intro _
      exact ⟨rfl, rfl, rfl⟩
    | cons ei rest ih =>
      intro hall
      obtain ⟨env1, inp1⟩ := ei
      have hd1 := hall (env1, inp1) (List.mem_cons_self _ rest)
      have hfeq := hstep env1 inp1 hd1
      obtain ⟨ihst, ihd, ihe⟩ :=
        ih (fun x hx => hall x (List.mem_cons_of_mem _ hx))
      have hsteq : (fireTrace goSort p ((env1, inp1) :: rest) st d).st
          = (fireTrace goSort p rest st d).st := by
        simp only [fireTrace, hfeq]
      have hdeq : (fireTrace goSort p ((env1, inp1) :: rest) st d).disk
          = (fireTrace goSort p rest st d).disk := by
        simp only [fireTrace, hfeq]
      have heeq : (fireTrace goSort p ((env1, inp1) :: rest) st d).errs
          = some IOErr.errInvalid :: (fireTrace goSort p rest st d).errs := by
        simp only [fireTrace, hfeq]
      refine ⟨by rw [hsteq, ihst], by rw [hdeq, ihd], ?_⟩
      rw [heeq, ihe, List.map_cons]
  · intro env inp st0 d0 hfile0 hlbl0 hdiff0 hclose0 hscanfail
    have h1 : (needsToRoll p inp.nowCheck st0).1 = true := by
      unfold needsToRoll
      rw [if_neg hlbl0]
      simp [hdiff0]
    have h2 : (needsToRoll p inp.nowCheck st0).2 = st0 := by
      unfold needsToRoll
      rw [if_neg hlbl0]
    have hr : roll goSort p env inp.nowRoll st0 d0
        = ⟨some .dirOpenErr, none, { st0 with currentFile := none },
            d0, []⟩ := by
      unfold roll
      rw [hfile0]
      simp only [hclose0, Bool.false_eq_true, if_false]
      rw [getSortedLogHistory_dirOpenFail goSort p env _ d0 hscanfail]
    simp only [fire]
    rw [h1, h2, hr]
    rfl

theorem c1_roll_failure_wedges_witness :
    (⟨['f'], 5, none, ['f'], 0, ['1']⟩ : HookState).currentFile = none ∧
    (⟨['f'], 5, none, ['f'], 0, ['1']⟩ : HookState).currentTimeFileName ≠ [] ∧
    fire (witSort natPattern) natPattern
      ⟨false, ⟨false, true, false, false, []⟩, false, false, false, false,
        fun _ => false⟩
      ⟨2, 2, some ['a']⟩ (⟨['f'], 5, none, ['f'], 0, ['1']⟩ : HookState) []
      = ⟨some .errInvalid, none,
          (⟨['f'], 5, none, ['f'], 0, ['1']⟩ : HookState), [], []⟩ := by
  refine ⟨rfl, by decide, ?_⟩
  exact (c1_roll_failure_wedges (witSort natPattern) natPattern
    ⟨['f'], 5, none, ['f'], 0, ['1']⟩ [] rfl (by decide)).1
    ⟨false, ⟨false, true, false, false, []⟩, false, false, false, false,
      fun _ => false⟩ ⟨2, 2, some ['a']⟩ (by decide)

lemma valid_parse_isSome {p : TimePattern} {s : Str}
    (h : isFileRollNameValid p s = true) : (p.parse s).isSome = true := by
  unfold isFileRollNameValid at h
  split at h
  · exact absurd h (by simp)
  · exact h

/-- Claim C4: during history reconstruction a directory entry is a history
candidate iff its name starts with base ++ delimiter; a stripped suffix is
kept iff the validity predicate accepts it; and the time policy's validity
predicate rejects every suffix that does not parse under the configured
pattern. -/
theorem c4_history_candidates (p : TimePattern) (base : Str) (d : Disk)
    (f s t : Str) (ht : p.parse t = none) :
    (f ∈ (dNames d).filter (hasRollName base) ↔
      f ∈ dNames d ∧ ∃ tl, f = base ++ rollingLogHistoryDelimiter ++ tl) ∧
    (s ∈ scannedTails p base d ↔
      s ∈ ((dNames d).filter (hasRollName base)).map (getFileRollName base) ∧
        isFileRollNameValid p s = true) ∧
    isFileRollNameValid p t = false := by
  refine ⟨?_, ?_, ?_⟩
  · rw [List.mem_filter]
    constructor
    · rintro ⟨hmem, hpre⟩
      exact ⟨hmem, (hasRollName_iff base f).mp hpre⟩
    · rintro ⟨hmem, hpre⟩
      exact ⟨hmem, (hasRollName_iff base f).mpr hpre⟩
  · unfold scannedTails
    exact List.mem_filter
  · unfold isFileRollNameValid
    split
    · rfl
    · rw [ht]
      rfl

theorem c4_history_candidates_witness :
    parseDec ['x'] = none ∧
    ((['f', '.', '0'] : Str) ∈
        (dNames [(['f', '.', '0'], ['a']), (['g'], ['b'])]).filter
          (hasRollName ['f']) ↔
      (['f', '.', '0'] : Str) ∈ dNames [(['f', '.', '0'], ['a']), (['g'], ['b'])]
        ∧ ∃ tl, (['f', '.', '0'] : Str)
          = ['f'] ++ rollingLogHistoryDelimiter ++ tl) := by
  refine ⟨by decide, ?_⟩
  exact (c4_history_candidates natPattern ['f']
    [(['f', '.', '0'], ['a']), (['g'], ['b'])] ['f', '.', '0'] ['0'] ['x']
    (by decide)).1

/-- Claim C6's stability part is false on the code: `sort.Sort` is
documented as not stable, and an implementation meeting its full contract
(permutation, sorted by `Less`) can swap the distinct equal-key valid
suffixes `0` and `00`, so stability does not follow from the code. -/
theorem c6_sort_stability_counterexample :
    GoSortContract natPattern (badSort natPattern) ∧
    isFileRollNameValid natPattern ['0'] = true ∧
    isFileRollNameValid natPattern ['0', '0'] = true ∧
    timeKey natPattern ['0'] = timeKey natPattern ['0', '0'] ∧
    (['0'] : Str) ≠ ['0', '0'] ∧
    (sortFileRollNamesAsc (badSort natPattern) [['0'], ['0', '0']]).1
      = [['0', '0'], ['0']] :=
  ⟨badSort_contract natPattern, by decide, by decide, by decide, by decide,
    by decide⟩

/-- Claim C6 (amended): for every implementation meeting the documented
`sort.Sort` contract and every list of valid suffixes, `sortFileRollNamesAsc`
returns a permutation of its input that is totally ordered by the parsed
timestamps, earliest first, and reports no error.  Stability is NOT
guaranteed (see the counterexample). -/
theorem c6_sort_amended (goSort : List Str → List Str) (p : TimePattern)
    (hsort : GoSortContract p goSort) (l : List Str)
    (hval : ∀ x ∈ l, isFileRollNameValid p x = true) :
    (sortFileRollNamesAsc goSort l).1.Perm l ∧
    (sortFileRollNamesAsc goSort l).2 = none ∧
    (sortFileRollNamesAsc goSort l).1.Pairwise (fun a b =>
      ∃ ka kb, p.parse a = some ka ∧ p.parse b = some kb ∧ ka ≤ kb) := by
  refine ⟨hsort.perm l, rfl, ?_⟩
  refine List.Pairwise.imp_of_mem ?_ (hsort.sorted l)
  intro a b ha hb hab
  have hka := valid_parse_isSome (hval a ((hsort.perm l).mem_iff.mp ha))
  have hkb := valid_parse_isSome (hval b ((hsort.perm l).mem_iff.mp hb))
  obtain ⟨ka, hka2⟩ := Option.isSome_iff_exists.mp hka
  obtain ⟨kb, hkb2⟩ := Option.isSome_iff_exists.mp hkb
  refine ⟨ka, kb, hka2, hkb2, ?_⟩
  have hle := (rollTimeLess_false_iff p a b).mp hab
  simpa [timeKey, hka2, hkb2] using hle

theorem c6_sort_amended_witness :
    GoSortContract natPattern (witSort natPattern) ∧
    (∀ x ∈ [(['1'] : Str), ['0']], isFileRollNameValid natPattern x = true) ∧
    (sortFileRollNamesAsc (witSort natPattern) [['1'], ['0']]).1.Perm
      [['1'], ['0']] := by
  refine ⟨witSort_contract natPattern, by decide, ?_⟩
  exact (c6_sort_amended (witSort natPattern) natPattern
    (witSort_contract natPattern) [['1'], ['0']] (by decide)).1

/-- Claim C7, as stated, is false on the code: the absolute-path derivation
runs before the output mode is consulted, so a scan in name-only mode
(pathIsName = true) still fails with the path-resolution error. -/
theorem c7_scan_path_error_counterexample :
    getDirFilePaths ⟨false, false, true, false, []⟩ [(['a'], true)] none true
      = .error .pathResolveErr := rfl

/-- Claim C7 (amended): a failure to derive the directory's absolute path
aborts the scan with the path-resolution error whenever the directory path
is relative — in name-only mode just as in full-path mode, for any filter. -/
theorem c7_scan_path_amended (env : ScanEnv) (listing : List (Str × Bool))
    (flt : Option (Str → Bool)) (mode : Bool)
    (hopen : env.openDirFails = false)
    (habs : env.dirIsAbs = false) (hfail : env.absFails = true) :
    getDirFilePaths env listing flt mode = .error .pathResolveErr := by
  unfold getDirFilePaths
  rw [hopen, habs, hfail]
  rfl

theorem c7_scan_path_amended_witness :
    (⟨false, false, true, false, []⟩ : ScanEnv).openDirFails = false ∧
    (⟨false, false, true, false, []⟩ : ScanEnv).dirIsAbs = false ∧
    (⟨false, false, true, false, []⟩ : ScanEnv).absFails = true ∧
    getDirFilePaths ⟨false, false, true, false, []⟩ [(['a'], true)] none false
      = .error .pathResolveErr :=
  ⟨rfl, rfl, rfl,
    c7_scan_path_amended ⟨false, false, true, false, []⟩ [(['a'], true)]
      none false rfl rfl rfl⟩

/-- Claim C10: removing an already-missing file is treated as success:
when the path does not exist, `tryRemoveFile` returns no error and leaves
the disk unchanged, so pruning a missing entry yields no warning. -/
theorem c10_remove_missing_ok (env : IOEnv) (d : Disk) (path : Str)
    (h : dLookup d path = none) :
    tryRemoveFile env d path = (none, d) := by
  unfold tryRemoveFile osRemove
  rw [h]

theorem c10_remove_missing_ok_witness :
    dLookup [(['f'], ['a'])] ['g'] = none ∧
    tryRemoveFile
      ⟨false, ⟨false, true, false, false, []⟩, false, false, false, false,
        fun _ => true⟩
      [(['f'], ['a'])] ['g'] = (none, [(['f'], ['a'])]) :=
  ⟨by decide,
    c10_remove_missing_ok
      ⟨false, ⟨false, true, false, false, []⟩, false, false, false, false,
        fun _ => true⟩
      [(['f'], ['a'])] ['g'] (by decide)⟩

/-- Claim C8: when an emit finds no open handle, the active file is opened
append/create without truncation — an existing file's content is untouched
and the tracked size becomes its existing length (a missing file is created
empty with size 0); resuming on an existing file leaves the disk unchanged
with tracked size = existing length + serialized length; and every emit with
an open handle adds exactly the serialized record's byte length. -/
theorem c8_open_append (goSort : List Str → List Str) (p : TimePattern)
    (env : IOEnv) (inp : FireInput) (st : HookState) (d : Disk) (c s : Str)
    (hmk : env.mkdirFails = false) (hop : env.openFails = false)
    (hstt : env.statFails = false)
    (hfile : st.currentFile = none)
    (hcur : dLookup d st.fileName = some c) :
    createFileAndFolderIfNeeded env st d
      = (none,
          { st with
              currentName := st.fileName, currentFile := some (),
              currentFileSize := c.length },
          d) ∧
    (∀ d0 : Disk, dLookup d0 st.fileName = none →
      createFileAndFolderIfNeeded env st d0
        = (none,
            { st with
                currentName := st.fileName, currentFile := some (),
                currentFileSize := 0 },
            dSet d0 st.fileName [])) ∧
    (st.currentTimeFileName ≠ [] →
      p.fmt inp.nowCheck = st.currentTimeFileName →
      inp.formatted = some s →
      fire goSort p env inp st d
        = ⟨none, none,
            { st with
                currentName := st.fileName, currentFile := some (),
                currentFileSize := c.length + s.length },
            d, []⟩) ∧
    (∀ st1 : HookState, st1.currentFile = some () →
      st1.currentTimeFileName ≠ [] →
      p.fmt inp.nowCheck = st1.currentTimeFileName →
      inp.formatted = some s →
      fire goSort p env inp st1 d
        = ⟨none, none,
            { st1 with currentFileSize := st1.currentFileSize + s.length },
            d, []⟩) := by
  have ha : createFileAndFolderIfNeeded env st d
      = (none,
          { st with
              currentName := st.fileName, currentFile := some (),
              currentFileSize := c.length },
          d) := by
    unfold createFileAndFolderIfNeeded
    simp only [hmk, hop, hstt, Bool.false_eq_true, if_false]
    rw [hcur]
  refine ⟨ha, ?_, ?_, ?_⟩
  · intro d0 h0
    unfold createFileAndFolderIfNeeded
    simp only [hmk, hop, hstt, Bool.false_eq_true, if_false]
    rw [h0]
    rfl
  · intro hlbl hsame hfmt
    have hneed : needsToRoll p inp.nowCheck st = (false, st) := by
      unfold needsToRoll
      rw [if_neg hlbl]
      simp [hsame]
    unfold fire
    rw [hneed]
    show fireAfterRoll env inp none st d [] = _
    unfold fireAfterRoll fireFormat
    rw [hfile, ha, hfmt]
  · intro st1 h1 h2 h3 h4
    exact fire_same_bucket goSort p env inp st1 d s h2 h3 h1 h4

theorem c8_open_append_witness :
    dLookup [(['f'], ['x', 'y'])]
      (⟨['f'], 5, none, ['f'], 0, ['1']⟩ : HookState).fileName
      = some ['x', 'y'] ∧
    (⟨['f'], 5, none, ['f'], 0, ['1']⟩ : HookState).currentFile = none ∧
    createFileAndFolderIfNeeded
      ⟨false, ⟨false, true, false, false, []⟩, false, false, false, false,
        fun _ => false⟩
      ⟨['f'], 5, none, ['f'], 0, ['1']⟩ [(['f'], ['x', 'y'])]
      = (none,
          (⟨['f'], 5, some (), ['f'], 2, ['1']⟩ : HookState),
          [(['f'], ['x', 'y'])]) := by
  refine ⟨by decide, rfl, ?_⟩
  exact (c8_open_append (witSort natPattern) natPattern
    ⟨false, ⟨false, true, false, false, []⟩, false, false, false, false,
      fun _ => false⟩
    ⟨1, 1, some ['z']⟩ ⟨['f'], 5, none, ['f'], 0, ['1']⟩
    [(['f'], ['x', 'y'])] ['x', 'y'] ['z']
    rfl rfl rfl rfl (by decide)).1
